import Mathlib

/-!
Shallow embedding of `terraform-filter-vars` (`src/main.go`).

The program reads a Terraform module directory to discover its declared
variable names, parses a sequence of `.tfvars` variable-definition files,
merges the attributes that are declared by the module with a last-wins
policy across files, and emits the surviving attributes sorted by name.
Diagnostics gate progress: an Error-severity diagnostic at the discovery
or parse checkpoint aborts the run before anything is emitted.

Effectful boundaries (the filesystem, the module inspector, and the HCL
parser) are modelled as inputs: a `RunInput` carries what the environment
would have answered at each call site, and `run` is the pure image of
`main`'s control flow over those answers.
-/

/-- Severity of a module-inspection diagnostic (`tfconfig.DiagSeverity`).
`invalid` is the zero value that remains when `appendHCLDiags` meets a
severity it does not recognise. -/
inductive DiagSeverity where
  | invalid
  | error
  | warning
deriving DecidableEq

/-- Source position attached to a diagnostic (`tfconfig.SourcePos`):
only the filename and line are carried. -/
structure SourcePos where
  filename : String
  line : Nat
deriving DecidableEq

/-- Diagnostic record accumulated by `main` (`tfconfig.Diagnostic`). -/
structure Diagnostic where
  severity : DiagSeverity
  summary : String
  detail : String
  pos : Option SourcePos
deriving DecidableEq

/-- Severity of an HCL parser diagnostic (`hcl.DiagnosticSeverity`):
`invalid` is `hcl.DiagInvalid`, the zero value. -/
inductive HCLSeverity where
  | invalid
  | error
  | warning
deriving DecidableEq

/-- Position inside an HCL source file (`hcl.Pos`). -/
structure HCLPos where
  line : Nat
  column : Nat
  byte : Nat
deriving DecidableEq

/-- Source range of an HCL diagnostic (`hcl.Range`); only the fields the
program reads (filename and start position) are modelled. -/
structure HCLRange where
  filename : String
  start : HCLPos
deriving DecidableEq

/-- Diagnostic produced by the HCL parser (`hcl.Diagnostic`); only the
fields the program reads are modelled. -/
structure HCLDiagnostic where
  severity : HCLSeverity
  summary : String
  detail : String
  subject : Option HCLRange
deriving DecidableEq

/-- One parsed attribute definition, carried as its opaque original token
span (`hclwrite.Attribute`, observed through `BuildTokens`). The program
never inspects the tokens; it only passes them through to the output. -/
structure Attribute where
  tokens : List String
deriving DecidableEq

/-- Result of a successful call to `hclwrite.ParseConfig`: the parser's
diagnostics and the file body as the sequence of its top-level attribute
definitions in source order (a name may occur more than once). -/
structure ParsedFile where
  hclDiags : List HCLDiagnostic
  body : List (String × Attribute)
deriving DecidableEq

/-- What the environment answers when the program tries to read and parse
one variable-definition file: either the read fails with an error message,
or the bytes are handed to `hclwrite.ParseConfig`, whose outcome is a
`ParsedFile`. -/
inductive FileData where
  | readError (msg : String)
  | parsed (pf : ParsedFile)
deriving DecidableEq

/-- One variable-definition file argument: its command-line path and what
the environment would answer if the program read and parsed it. -/
structure VarFileArg where
  path : String
  data : FileData
deriving DecidableEq

/-- Test from `exitIfErrors` / `exitWithDiags`: `diag.Severity == tfconfig.DiagError`. -/
def isErrorDiag (d : Diagnostic) : Bool :=
  match d.severity with
  | .error => true
  | _ => false

/-- Whether some accumulated diagnostic has Error severity (the loops in
`exitIfErrors` and `exitWithDiags`). -/
def hasErrorDiag (ds : List Diagnostic) : Bool :=
  ds.any isErrorDiag

/-- Test from `hcl.Diagnostics.HasErrors`: severity equals `hcl.DiagError`. -/
def hclIsError (d : HCLDiagnostic) : Bool :=
  match d.severity with
  | .error => true
  | _ => false

/-- `hcl.Diagnostics.HasErrors`: whether any parser diagnostic is an error. -/
def hclHasErrors (ds : List HCLDiagnostic) : Bool :=
  ds.any hclIsError

/-- Conversion of one HCL diagnostic performed inside `appendHCLDiags`:
translate the severity (leaving the zero value for an unrecognised one) and
project the subject range, when present, to a filename and start line. -/
def convertHCLDiag (d : HCLDiagnostic) : Diagnostic :=
  { severity :=
      match d.severity with
      | .error => .error
      | .warning => .warning
      | .invalid => .invalid
    summary := d.summary
    detail := d.detail
    pos := d.subject.map fun r => { filename := r.filename, line := r.start.line } }

/-- `appendHCLDiags`: convert each HCL diagnostic in order and append it to
the accumulated list. -/
def appendHCLDiags (diags : List Diagnostic) (hclDiags : List HCLDiagnostic) : List Diagnostic :=
  hclDiags.foldl (fun acc d => acc ++ [convertHCLDiag d]) diags

/-- The `attrs` working map of `main`: Go map from variable name to the
winning attribute, modelled as a function to `Option`. -/
abbrev AttrMap := String → Option Attribute

/-- The empty attribute map (`make(map[string]*hclwrite.Attribute, ...)`). -/
def AttrMap.empty : AttrMap := fun _ => none

/-- Go map assignment `m[k] = v`. -/
def AttrMap.set (m : AttrMap) (k : String) (v : Attribute) : AttrMap :=
  fun n => if n = k then some v else m n

/-- Lexicographic comparison of character lists, `true` when the first is
less than or equal to the second. This is the string ordering that Go's
`sort.Strings` uses, expressed on the characters of the string. -/
def charListLe : List Char → List Char → Bool
  | [], _ => true
  | _ :: _, [] => false
  | a :: as, b :: bs => if a < b then true else if b < a then false else charListLe as bs

/-- Go `a <= b` on strings, as compared by `sort.Strings`. -/
def strLe (a b : String) : Bool :=
  charListLe a.data b.data

/-- Go `strings.HasSuffix`, expressed on the characters of the string. -/
def hasSuffix (s suffix : String) : Bool :=
  suffix.data.isSuffixOf s.data

/-- Modelled from the spec: the attribute map exposed by the tokenized
config parser for one file body (`hclwrite` body `Attributes()`, which is
library code outside this repository). Per the spec, it maps each defined
name to its definition and, when a file defines the same name twice, the
second occurrence is the one exposed (file-internal last-wins). -/
def bodyAttributes (defs : List (String × Attribute)) : AttrMap :=
  defs.foldl (fun m p => m.set p.1 p.2) AttrMap.empty

/-- Diagnostic built for a `.json`-suffixed file argument (`main`, JSON branch). -/
def jsonNotSupportedDiag (path : String) : Diagnostic :=
  { severity := .error
    summary := "JSON tfvars not supported"
    detail := "Can't read " ++ path ++ ": only native syntax .tfvars files are supported."
    pos := none }

/-- Diagnostic built when reading an input file fails (`main`, read branch). -/
def readFailedDiag (path : String) (errMsg : String) : Diagnostic :=
  { severity := .error
    summary := "Failed to read input file"
    detail := "Can't read " ++ path ++ ": " ++ errMsg ++ "."
    pos := none }

/-- Diagnostic built when creating the output file fails. -/
def failedOpenDiag (out : String) (errMsg : String) : Diagnostic :=
  { severity := .error
    summary := "Failed to open output file"
    detail := "Can't create " ++ out ++ ": " ++ errMsg ++ "."
    pos := none }

/-- Diagnostic built when writing to the output fails. -/
def failedWriteDiag (out : String) (errMsg : String) : Diagnostic :=
  { severity := .error
    summary := "Failed to write to output file"
    detail := "Error writing to " ++ out ++ ": " ++ errMsg ++ "."
    pos := none }

/-- Effect of the Go range loop over the parsed body's attribute map:
every entry whose name is in `wantedVarsSet` overwrites the working map at
that name; every other entry is ignored. Since the map's keys are unique,
the loop's iteration order does not matter, and its net effect is this
pointwise override. -/
def mergeBody (wantedVarsSet : List String) (attrs : AttrMap) (bodyMap : AttrMap) : AttrMap :=
  fun n =>
    match bodyMap n with
    | some a => if n ∈ wantedVarsSet then some a else attrs n
    | none => attrs n

/-- Body of the `for _, varFilePath := range varFilePaths` loop in `main`:
reject `.json` paths, record read failures, convert parse diagnostics, and
when the parse has no errors fold the file's attribute map into the
working state. -/
def processFile (wantedVarsSet : List String) (st : List Diagnostic × AttrMap)
    (f : VarFileArg) : List Diagnostic × AttrMap :=
  if hasSuffix f.path ".json" then
    (st.1 ++ [jsonNotSupportedDiag f.path], st.2)
  else
    match f.data with
    | .readError msg => (st.1 ++ [readFailedDiag f.path msg], st.2)
    | .parsed pf =>
      let diags := appendHCLDiags st.1 pf.hclDiags
      if hclHasErrors pf.hclDiags then
        (diags, st.2)
      else
        (diags, mergeBody wantedVarsSet st.2 (bodyAttributes pf.body))

/-- Diagnostics that processing one file argument appends, independent of
the working state. -/
def fileDiags (f : VarFileArg) : List Diagnostic :=
  if hasSuffix f.path ".json" then
    [jsonNotSupportedDiag f.path]
  else
    match f.data with
    | .readError msg => [readFailedDiag f.path msg]
    | .parsed pf => pf.hclDiags.map convertHCLDiag

/-- Attribute map that one file argument contributes to the merge: empty
when the file is rejected (`.json` suffix), unreadable, or fails to parse,
and otherwise its body's attribute map. -/
def fileAttrs (f : VarFileArg) : AttrMap :=
  if hasSuffix f.path ".json" then
    AttrMap.empty
  else
    match f.data with
    | .readError _ => AttrMap.empty
    | .parsed pf => if hclHasErrors pf.hclDiags then AttrMap.empty else bodyAttributes pf.body

/-- `sort.Strings` applied to the declared variable names. -/
def sortStrings (l : List String) : List String :=
  l.insertionSort fun a b => strLe a b = true

/-- The output-document construction loop of `main` (lines 105-119): for
each declared name in sorted order that has a winning attribute, append
that attribute's token span to the output body. Each appended span is
recorded together with the name whose map entry produced it. -/
def emitOutput (wantedVars : List String) (attrs : AttrMap) : List (String × Attribute) :=
  wantedVars.filterMap fun name => (attrs name).map fun a => (name, a)

/-- `exitWithDiags`: the process status is failure exactly when an
Error-severity diagnostic was accumulated. -/
def exitCodeFor (ds : List Diagnostic) : Nat :=
  if hasErrorDiag ds then 1 else 0

/-- Observable end of a run. `earlyExit` is `exitIfErrors` firing at a
checkpoint: the diagnostics collected so far are shown and the process
exits with status 1, without building any output document. `finished`
carries the diagnostics shown by `exitWithDiags`, the output document that
was built, and the exit status. -/
inductive Outcome where
  | earlyExit (printed : List Diagnostic)
  | finished (printed : List Diagnostic) (output : List (String × Attribute)) (code : Nat)
deriving DecidableEq

/-- Diagnostics shown on standard error by the run. -/
def Outcome.printed : Outcome → List Diagnostic
  | .earlyExit ds => ds
  | .finished ds _ _ => ds

/-- Process exit status of the run. -/
def Outcome.exitCode : Outcome → Nat
  | .earlyExit _ => 1
  | .finished _ _ c => c

/-- Output document built by the run, when the run reached the emit stage. -/
def Outcome.outputDoc : Outcome → Option (List (String × Attribute))
  | .earlyExit _ => none
  | .finished _ o _ => some o

/-- Everything `main` receives from its environment: the `-out` target,
the module inspector's answer (`tfconfig.LoadModule`: the keys of
`mod.Variables` plus diagnostics), the variable-definition file arguments
with their contents, and whether creating or writing the output would
fail. -/
structure RunInput where
  outP : String
  modDiags : List Diagnostic
  modVariables : List String
  varFiles : List VarFileArg
  createErr : Option String
  writeErr : Option String
deriving DecidableEq

/-- Pure image of `main` from the first checkpoint on: abort if module
discovery produced an error; process each file argument in order; abort if
any accumulated diagnostic is an error; build the output document over the
sorted declared names; then model output creation and writing, ending in
`exitWithDiags`. -/
def run (inp : RunInput) : Outcome :=
  if hasErrorDiag inp.modDiags then
    .earlyExit inp.modDiags
  else
    let wantedVars := sortStrings inp.modVariables
    let st := inp.varFiles.foldl (processFile inp.modVariables) (inp.modDiags, AttrMap.empty)
    if hasErrorDiag st.1 then
      .earlyExit st.1
    else
      let output := emitOutput wantedVars st.2
      match (if inp.outP = "-" then none else inp.createErr) with
      | some msg =>
        .finished (st.1 ++ [failedOpenDiag inp.outP msg]) output
          (exitCodeFor (st.1 ++ [failedOpenDiag inp.outP msg]))
      | none =>
        match inp.writeErr with
        | some msg =>
          .finished (st.1 ++ [failedWriteDiag inp.outP msg]) output
            (exitCodeFor (st.1 ++ [failedWriteDiag inp.outP msg]))
        | none => .finished st.1 output (exitCodeFor st.1)

/-- Severity text chosen by the switch in `showDiags`. -/
def severityText (s : DiagSeverity) : String :=
  match s with
  | .error => "Error: "
  | .warning => "Warning: "
  | .invalid => ""

/-- Text that `showDiags` writes to standard error for one diagnostic:
the severity text, then (when a position is present) the
`" (filename:line) "` insertion, then `summary; detail`. No newline is
written. -/
def diagText (d : Diagnostic) : String :=
  let pstr := severityText d.severity
  let pstr :=
    match d.pos with
    | some p => pstr ++ " (" ++ p.filename ++ ":" ++ toString p.line ++ ") "
    | none => pstr
  pstr ++ d.summary ++ "; " ++ d.detail

/-- `showDiags`: the loop writes each diagnostic's text in order to
standard error; the whole output is their concatenation. -/
def showDiags : List Diagnostic → String
  | [] => ""
  | d :: rest => diagText d ++ showDiags rest

/-- Definition of `v` exposed by the last file argument that contributes
one: later files take precedence. -/
def lastDef : List VarFileArg → String → Option Attribute
  | [], _ => none
  | f :: fs, v =>
    match lastDef fs v with
    | some a => some a
    | none => fileAttrs f v

/-- Last entry for a name in a raw body sequence: later occurrences take
precedence. -/
def lastEntry : List (String × Attribute) → String → Option Attribute
  | [], _ => none
  | p :: ps, v =>
    match lastEntry ps v with
    | some a => some a
    | none => if p.1 = v then some p.2 else none

/-- Merge of a whole file sequence into a working map. -/
def mergeFiles (wantedVarsSet : List String) (m : AttrMap) (files : List VarFileArg) : AttrMap :=
  files.foldl (fun acc f => mergeBody wantedVarsSet acc (fileAttrs f)) m

/-- Same shape of environment answers for one file argument: equal paths,
equal read-failure messages, equal parser diagnostics — the parsed body
attributes are allowed to differ. -/
def sameDiagShape : FileData → FileData → Prop
  | .readError m, .readError m' => m = m'
  | .parsed pf, .parsed pf' => pf.hclDiags = pf'.hclDiags
  | _, _ => False

/-- Two run inputs that agree on everything a diagnostic can depend on:
module diagnostics, output destination and its failures, and the shape
(path, read failure, parser diagnostics) of every file argument. The
declared-variable set and the parsed attribute bodies may differ. -/
def SameDiagEnv (inp inp' : RunInput) : Prop :=
  inp.modDiags = inp'.modDiags ∧
  inp.outP = inp'.outP ∧
  inp.createErr = inp'.createErr ∧
  inp.writeErr = inp'.writeErr ∧
  List.Forall₂ (fun f f' => f.path = f'.path ∧ sameDiagShape f.data f'.data)
    inp.varFiles inp'.varFiles

/-- Diagnostics appended by the output-creation and output-write stage,
as a function of the `-out` target and the environment's create/write
failures: a failed create aborts before any write is attempted, and the
standard-output target never goes through create. -/
def writeExtra (outP : String) (createErr writeErr : Option String) : List Diagnostic :=
  match (if outP = "-" then none else createErr) with
  | some msg => [failedOpenDiag outP msg]
  | none =>
    match writeErr with
    | some msg => [failedWriteDiag outP msg]
    | none => []

/-- Attribute span used by the concrete last-wins example (earlier file). -/
def attrA1 : Attribute := ⟨["bar", "=", "1"]⟩

/-- Attribute span used by the concrete last-wins example (later file). -/
def attrB1 : Attribute := ⟨["bar", "=", "2"]⟩

/-- Earlier file of the concrete last-wins example. -/
def fileA1 : VarFileArg := ⟨"a.tfvars", .parsed ⟨[], [("bar", attrA1)]⟩⟩

/-- Later file of the concrete last-wins example. -/
def fileB1 : VarFileArg := ⟨"b.tfvars", .parsed ⟨[], [("bar", attrB1)]⟩⟩

/-- Concrete run input with two files both defining `bar`. -/
def inp1 : RunInput := ⟨"-", [], ["bar"], [fileA1, fileB1], none, none⟩

/-- Declared attribute of the concrete filtering example. -/
def attrFoo2 : Attribute := ⟨["foo", "=", "1"]⟩

/-- Undeclared attribute of the concrete filtering example. -/
def attrBoop2 : Attribute := ⟨["boop", "=", "2"]⟩

/-- File of the concrete filtering example, defining a declared and an
undeclared name. -/
def file2 : VarFileArg := ⟨"s.tfvars", .parsed ⟨[], [("foo", attrFoo2), ("boop", attrBoop2)]⟩⟩

/-- Concrete run input whose file defines one undeclared name. -/
def inp2 : RunInput := ⟨"-", [], ["foo"], [file2], none, none⟩

/-- Attribute of the concrete sortedness example, defined first. -/
def attrFoo3 : Attribute := ⟨["foo", "=", "1"]⟩

/-- Attribute of the concrete sortedness example, defined second. -/
def attrBar3 : Attribute := ⟨["bar", "=", "2"]⟩

/-- File of the concrete sortedness example, defining names out of order. -/
def file3 : VarFileArg := ⟨"o.tfvars", .parsed ⟨[], [("foo", attrFoo3), ("bar", attrBar3)]⟩⟩

/-- Concrete run input whose declared names arrive unsorted. -/
def inp3 : RunInput := ⟨"-", [], ["foo", "bar"], [file3], none, none⟩

/-- Concrete run input with one `.json` file argument. -/
def inp4 : RunInput := ⟨"-", [], ["foo"], [⟨"v.json", .parsed ⟨[], []⟩⟩], none, none⟩

/-- First occurrence of the duplicated attribute name. -/
def attrX6 : Attribute := ⟨["a", "=", "1"]⟩

/-- Second occurrence of the duplicated attribute name. -/
def attrY6 : Attribute := ⟨["a", "=", "2"]⟩

/-- Parsed file defining the same attribute name twice with no diagnostics. -/
def pf6 : ParsedFile := ⟨[], [("a", attrX6), ("a", attrY6)]⟩

/-- Attribute of the unused-declared example. -/
def attrFoo7 : Attribute := ⟨["foo", "=", "1"]⟩

/-- File of the unused-declared example: defines `foo` but not `bar`. -/
def file7 : VarFileArg := ⟨"c.tfvars", .parsed ⟨[], [("foo", attrFoo7)]⟩⟩

/-- Concrete run input where declared `bar` is never defined. -/
def inp7 : RunInput := ⟨"-", [], ["foo", "bar"], [file7], none, none⟩

/-- First collected diagnostic of the diagnostics-printing example. -/
def c8Diag1 : Diagnostic := ⟨.error, "first summary", "first detail", none⟩

/-- Second collected diagnostic of the diagnostics-printing example. -/
def c8Diag2 : Diagnostic := ⟨.error, "second summary", "second detail", none⟩

/-- Concrete run input that aborts at the discovery checkpoint with two
collected diagnostics. -/
def c8Inp : RunInput := ⟨"-", [c8Diag1, c8Diag2], [], [], none, none⟩

/-- Warning diagnostic of the warnings-only parse example. -/
def warnHCL9 : HCLDiagnostic := ⟨.warning, "deprecated syntax", "detail", none⟩

/-- Attribute of the warnings-only parse example. -/
def attrFoo9 : Attribute := ⟨["foo", "=", "1"]⟩

/-- Parsed file of the warnings-only example: one warning, no errors. -/
def pf9 : ParsedFile := ⟨[warnHCL9], [("foo", attrFoo9)]⟩

/-- File argument of the warnings-only example. -/
def file9 : VarFileArg := ⟨"w.tfvars", .parsed pf9⟩

/-- Concrete run input whose only diagnostics are warnings. -/
def inp9 : RunInput := ⟨"-", [], ["foo"], [file9], none, none⟩

/-- Attribute of the defined-iff-present example. -/
def attr10 : Attribute := ⟨["foo", "=", "1"]⟩

/-- File of the defined-iff-present example. -/
def file10 : VarFileArg := ⟨"d.tfvars", .parsed ⟨[], [("foo", attr10)]⟩⟩

/-- Concrete run input for the defined-iff-present example. -/
def inp10 : RunInput := ⟨"-", [], ["foo"], [file10], none, none⟩

theorem appendHCLDiags_eq (diags : List Diagnostic) (hclDiags : List HCLDiagnostic) :
    appendHCLDiags diags hclDiags = diags ++ hclDiags.map convertHCLDiag := by
  induction hclDiags generalizing diags with
  | nil => simp [appendHCLDiags]
  | cons d rest ih =>
    have h := ih (diags ++ [convertHCLDiag d])
    simp only [appendHCLDiags, List.foldl_cons] at h ⊢
    rw [h]
    simp

theorem mergeBody_empty (w : List String) (m : AttrMap) :
    mergeBody w m AttrMap.empty = m := by
  funext n
  simp [mergeBody, AttrMap.empty]

theorem processFile_eq (w : List String) (st : List Diagnostic × AttrMap) (f : VarFileArg) :
    processFile w st f = (st.1 ++ fileDiags f, mergeBody w st.2 (fileAttrs f)) := by
  obtain ⟨p, d⟩ := f
  by_cases hj : hasSuffix p ".json"
  · simp [processFile, fileDiags, fileAttrs, hj, mergeBody_empty]
  · cases d with
    | readError msg => simp [processFile, fileDiags, fileAttrs, hj, mergeBody_empty]
    | parsed pf =>
      by_cases he : hclHasErrors pf.hclDiags
      · simp [processFile, fileDiags, fileAttrs, hj, he, appendHCLDiags_eq, mergeBody_empty]
      · simp [processFile, fileDiags, fileAttrs, hj, he, appendHCLDiags_eq]

theorem foldl_processFile (w : List String) (files : List VarFileArg)
    (d0 : List Diagnostic) (m0 : AttrMap) :
    files.foldl (processFile w) (d0, m0) =
      (d0 ++ files.flatMap fileDiags, mergeFiles w m0 files) := by
  induction files generalizing d0 m0 with
  | nil => simp [mergeFiles]
  | cons f fs ih =>
    simp only [List.foldl_cons, processFile_eq, List.flatMap_cons, mergeFiles] at ih ⊢
    rw [ih]
    simp [List.append_assoc]

theorem mergeFiles_lookup (w : List String) (files : List VarFileArg)
    (m0 : AttrMap) (v : String) :
    mergeFiles w m0 files v =
      if v ∈ w then
        match lastDef files v with
        | some a => some a
        | none => m0 v
      else m0 v := by
  induction files generalizing m0 with
  | nil =>
    simp only [mergeFiles, List.foldl_nil, lastDef]
    by_cases hv : v ∈ w <;> simp [hv]
  | cons f fs ih =>
    simp only [mergeFiles, List.foldl_cons] at ih ⊢
    rw [ih (mergeBody w m0 (fileAttrs f))]
    by_cases hv : v ∈ w
    · simp only [hv, if_true, lastDef]
      cases hld : lastDef fs v with
      | some a => rfl
      | none =>
        simp only [mergeBody]
        cases hfa : fileAttrs f v with
        | some a => simp [hv]
        | none => rfl
    · simp only [hv, if_false]
      simp only [mergeBody]
      cases hfa : fileAttrs f v with
      | some a => simp [hv]
      | none => rfl

theorem lastDef_append (l1 l2 : List VarFileArg) (v : String) :
    lastDef (l1 ++ l2) v =
      match lastDef l2 v with
      | some a => some a
      | none => lastDef l1 v := by
  induction l1 with
  | nil =>
    simp only [List.nil_append]
    cases lastDef l2 v with
    | some a => rfl
    | none => rfl
  | cons f fs ih =>
    simp only [List.cons_append, lastDef, List.append_eq]
    rw [ih]
    cases lastDef l2 v with
    | some a => cases lastDef fs v <;> rfl
    | none => cases lastDef fs v <;> rfl

theorem lastDef_none_of_forall (l : List VarFileArg) (v : String)
    (h : ∀ f ∈ l, fileAttrs f v = none) : lastDef l v = none := by
  induction l with
  | nil => rfl
  | cons f fs ih =>
    simp only [lastDef]
    rw [ih fun g hg => h g (List.mem_cons_of_mem f hg)]
    exact h f (List.mem_cons_self f fs)

theorem lastDef_some_mem (l : List VarFileArg) (v : String) (a : Attribute)
    (h : lastDef l v = some a) : ∃ f ∈ l, fileAttrs f v = some a := by
  induction l with
  | nil => exact absurd h (by simp [lastDef])
  | cons f fs ih =>
    rw [lastDef] at h
    cases hld : lastDef fs v with
    | some b =>
      rw [hld] at h
      obtain ⟨g, hg, hga⟩ := ih (hld.trans (by simpa using h))
      exact ⟨g, List.mem_cons_of_mem f hg, hga⟩
    | none =>
      rw [hld] at h
      exact ⟨f, List.mem_cons_self f fs, h⟩

theorem lastDef_isSome_of_mem (l : List VarFileArg) (v : String) (f : VarFileArg)
    (hf : f ∈ l) (h : fileAttrs f v ≠ none) : lastDef l v ≠ none := by
  induction l with
  | nil => cases hf
  | cons g gs ih =>
    rw [lastDef]
    cases hld : lastDef gs v with
    | some a => simp
    | none =>
      rcases List.mem_cons.mp hf with heq | hmem
      · subst heq
        simpa using h
      · exact absurd hld (ih hmem)

theorem lastEntry_append (l1 l2 : List (String × Attribute)) (v : String) :
    lastEntry (l1 ++ l2) v =
      match lastEntry l2 v with
      | some a => some a
      | none => lastEntry l1 v := by
  induction l1 with
  | nil =>
    simp only [List.nil_append]
    cases lastEntry l2 v with
    | some a => rfl
    | none => rfl
  | cons p ps ih =>
    simp only [List.cons_append, lastEntry, List.append_eq]
    rw [ih]
    cases lastEntry l2 v with
    | some a => cases lastEntry ps v <;> rfl
    | none => cases lastEntry ps v <;> rfl

theorem lastEntry_none_of_forall (l : List (String × Attribute)) (v : String)
    (h : ∀ p ∈ l, p.1 ≠ v) : lastEntry l v = none := by
  induction l with
  | nil => rfl
  | cons p ps ih =>
    simp only [lastEntry]
    rw [ih fun q hq => h q (List.mem_cons_of_mem p hq)]
    simp [h p (List.mem_cons_self p ps)]

theorem bodyAttributes_lookup (defs : List (String × Attribute)) (v : String) :
    bodyAttributes defs v = lastEntry defs v := by
  suffices h : ∀ (m : AttrMap),
      (defs.foldl (fun m p => m.set p.1 p.2) m) v =
        match lastEntry defs v with
        | some a => some a
        | none => m v by
    have h2 := h AttrMap.empty
    rw [bodyAttributes, h2]
    cases lastEntry defs v <;> simp [AttrMap.empty]
  induction defs with
  | nil => intro m; rfl
  | cons p ps ih =>
    intro m
    simp only [List.foldl_cons, lastEntry]
    rw [ih (m.set p.1 p.2)]
    cases hle : lastEntry ps v with
    | some a => rfl
    | none =>
      simp only [AttrMap.set]
      by_cases hv : v = p.1
      · simp [hv]
      · rw [if_neg hv, if_neg fun hh => hv hh.symm]

theorem hasErrorDiag_iff (ds : List Diagnostic) :
    hasErrorDiag ds = true ↔ ∃ d ∈ ds, d.severity = DiagSeverity.error := by
  simp only [hasErrorDiag, List.any_eq_true]
  constructor
  · rintro ⟨d, hd, he⟩
    refine ⟨d, hd, ?_⟩
    revert he
    unfold isErrorDiag
    cases d.severity <;> simp
  · rintro ⟨d, hd, he⟩
    exact ⟨d, hd, by simp [isErrorDiag, he]⟩

theorem exitCodeFor_one (ds : List Diagnostic) (h : exitCodeFor ds = 1) :
    hasErrorDiag ds = true := by
  by_cases he : hasErrorDiag ds
  · exact he
  · rw [exitCodeFor, if_neg he] at h
    cases h

theorem hasErrorDiag_append (a b : List Diagnostic) :
    hasErrorDiag (a ++ b) = (hasErrorDiag a || hasErrorDiag b) :=
  List.any_append

theorem run_cases (inp : RunInput) :
    (hasErrorDiag inp.modDiags = true ∧ run inp = .earlyExit inp.modDiags) ∨
    (hasErrorDiag inp.modDiags = false ∧
      hasErrorDiag (inp.modDiags ++ inp.varFiles.flatMap fileDiags) = true ∧
      run inp = .earlyExit (inp.modDiags ++ inp.varFiles.flatMap fileDiags)) ∨
    (hasErrorDiag (inp.modDiags ++ inp.varFiles.flatMap fileDiags) = false ∧
      run inp = .finished
        (inp.modDiags ++ inp.varFiles.flatMap fileDiags ++
          writeExtra inp.outP inp.createErr inp.writeErr)
        (emitOutput (sortStrings inp.modVariables)
          (mergeFiles inp.modVariables AttrMap.empty inp.varFiles))
        (exitCodeFor (inp.modDiags ++ inp.varFiles.flatMap fileDiags ++
          writeExtra inp.outP inp.createErr inp.writeErr))) := by
  by_cases h1 : hasErrorDiag inp.modDiags
  · exact Or.inl ⟨h1, by rw [run, if_pos h1]⟩
  · by_cases h2 : hasErrorDiag (inp.modDiags ++ inp.varFiles.flatMap fileDiags)
    · refine Or.inr (Or.inl ⟨by simpa using h1, h2, ?_⟩)
      rw [run, if_neg h1]
      simp only [foldl_processFile]
      rw [if_pos h2]
    · refine Or.inr (Or.inr ⟨by simpa using h2, ?_⟩)
      rw [run, if_neg h1]
      simp only [foldl_processFile]
      rw [if_neg h2]
      rw [writeExtra.eq_def]
      rcases hc : (if inp.outP = "-" then none else inp.createErr) with _ | msg
      · rcases hw : inp.writeErr with _ | msg2
        · simp
        · rfl
      · rfl

theorem run_failure_has_error (inp : RunInput) (h : (run inp).exitCode = 1) :
    ∃ d ∈ (run inp).printed, d.severity = DiagSeverity.error := by
  rcases run_cases inp with ⟨h1, hr⟩ | ⟨_, h2, hr⟩ | ⟨_, hr⟩
  · rw [hr]
    exact (hasErrorDiag_iff _).mp h1
  · rw [hr]
    exact (hasErrorDiag_iff _).mp h2
  · rw [hr] at h ⊢
    exact (hasErrorDiag_iff _).mp (exitCodeFor_one _ h)

theorem run_finished_inv (inp : RunInput) (printed : List Diagnostic)
    (output : List (String × Attribute)) (code : Nat)
    (h : run inp = .finished printed output code) :
    hasErrorDiag (inp.modDiags ++ inp.varFiles.flatMap fileDiags) = false ∧
    printed = inp.modDiags ++ inp.varFiles.flatMap fileDiags ++
      writeExtra inp.outP inp.createErr inp.writeErr ∧
    output = emitOutput (sortStrings inp.modVariables)
      (mergeFiles inp.modVariables AttrMap.empty inp.varFiles) ∧
    code = exitCodeFor printed := by
  rcases run_cases inp with ⟨_, hr⟩ | ⟨_, _, hr⟩ | ⟨hne, hr⟩
  · rw [hr] at h
    cases h
  · rw [hr] at h
    cases h
  · rw [hr] at h
    cases h
    exact ⟨hne, rfl, rfl, rfl⟩

theorem fileDiags_shape (f f' : VarFileArg) (hp : f.path = f'.path)
    (hd : sameDiagShape f.data f'.data) : fileDiags f = fileDiags f' := by
  obtain ⟨p, d⟩ := f
  obtain ⟨p', d'⟩ := f'
  simp only at hp
  subst hp
  cases d with
  | readError m =>
    cases d' with
    | readError m' =>
      have hm : m = m' := hd
      subst hm
      rfl
    | parsed pf' => exact (hd : False).elim
  | parsed pf =>
    cases d' with
    | readError m' => exact (hd : False).elim
    | parsed pf' =>
      have hds : pf.hclDiags = pf'.hclDiags := hd
      simp [fileDiags, hds]

theorem flatMap_fileDiags_shape (fs fs' : List VarFileArg)
    (h : List.Forall₂ (fun f f' => f.path = f'.path ∧ sameDiagShape f.data f'.data) fs fs') :
    fs.flatMap fileDiags = fs'.flatMap fileDiags := by
  induction h with
  | nil => rfl
  | cons hab hrest ih =>
    simp only [List.flatMap_cons]
    rw [fileDiags_shape _ _ hab.1 hab.2, ih]

theorem run_printed_shape (inp inp' : RunInput) (h : SameDiagEnv inp inp') :
    (run inp).printed = (run inp').printed ∧ (run inp).exitCode = (run inp').exitCode := by
  obtain ⟨hmod, hout, hcreate, hwrite, hfiles⟩ := h
  have hfd : inp.varFiles.flatMap fileDiags = inp'.varFiles.flatMap fileDiags :=
    flatMap_fileDiags_shape _ _ hfiles
  have hbase : inp.modDiags ++ inp.varFiles.flatMap fileDiags =
      inp'.modDiags ++ inp'.varFiles.flatMap fileDiags := by
    rw [hmod, hfd]
  have hwx : writeExtra inp.outP inp.createErr inp.writeErr =
      writeExtra inp'.outP inp'.createErr inp'.writeErr := by
    rw [hout, hcreate, hwrite]
  rcases run_cases inp with ⟨h1, hr⟩ | ⟨h1, h2, hr⟩ | ⟨h2, hr⟩
  · rcases run_cases inp' with ⟨h1', hr'⟩ | ⟨h1', h2', hr'⟩ | ⟨h2', hr'⟩
    · rw [hr, hr']
      exact ⟨hmod, rfl⟩
    · rw [hmod] at h1
      rw [h1] at h1'
      simp at h1'
    · rw [hasErrorDiag_append, Bool.or_eq_false_iff] at h2'
      rw [hmod] at h1
      obtain ⟨ha, _⟩ := h2'
      rw [h1] at ha
      simp at ha
  · rcases run_cases inp' with ⟨h1', hr'⟩ | ⟨h1', h2', hr'⟩ | ⟨h2', hr'⟩
    · rw [hmod] at h1
      rw [h1'] at h1
      simp at h1
    · rw [hr, hr']
      exact ⟨hbase, rfl⟩
    · rw [hbase] at h2
      rw [h2] at h2'
      simp at h2'
  · rcases run_cases inp' with ⟨h1', hr'⟩ | ⟨h1', h2', hr'⟩ | ⟨h2', hr'⟩
    · rw [hasErrorDiag_append, Bool.or_eq_false_iff] at h2
      rw [hmod] at h2
      obtain ⟨ha, _⟩ := h2
      rw [h1'] at ha
      simp at ha
    · rw [hbase] at h2
      rw [h2] at h2'
      simp at h2'
    · rw [hr, hr']
      refine ⟨?_, ?_⟩
      · rw [Outcome.printed, Outcome.printed, hbase, hwx]
      · rw [Outcome.exitCode, Outcome.exitCode, hbase, hwx]

theorem emitOutput_mem (wantedVars : List String) (attrs : AttrMap) (v : String) (a : Attribute) :
    (v, a) ∈ emitOutput wantedVars attrs ↔ v ∈ wantedVars ∧ attrs v = some a := by
  simp only [emitOutput, List.mem_filterMap]
  constructor
  · rintro ⟨n, hn, hna⟩
    rcases han : attrs n with _ | b
    · rw [han] at hna
      cases hna
    · rw [han] at hna
      simp only [Option.map_some', Option.some.injEq, Prod.mk.injEq] at hna
      obtain ⟨rfl, rfl⟩ := hna
      exact ⟨hn, han⟩
  · rintro ⟨hv, ha⟩
    exact ⟨v, hv, by rw [ha]; rfl⟩

theorem emitOutput_map_fst (wantedVars : List String) (attrs : AttrMap) :
    (emitOutput wantedVars attrs).map Prod.fst =
      wantedVars.filter fun n => (attrs n).isSome := by
  induction wantedVars with
  | nil => rfl
  | cons n ns ih =>
    simp only [emitOutput, List.filterMap_cons] at ih ⊢
    cases han : attrs n with
    | none => simpa [han, List.filter_cons] using ih
    | some a => simpa [han, List.filter_cons] using ih

theorem sortStrings_mem (l : List String) (v : String) :
    v ∈ sortStrings l ↔ v ∈ l :=
  List.mem_insertionSort _

theorem charListLe_cons_iff (a b : Char) (as bs : List Char) :
    charListLe (a :: as) (b :: bs) = true ↔
      a < b ∨ (¬ a < b ∧ ¬ b < a ∧ charListLe as bs = true) := by
  simp only [charListLe]
  by_cases hab : a < b
  · simp [hab]
  · by_cases hba : b < a <;> simp [hab, hba]

theorem charListLe_total : ∀ as bs : List Char,
    charListLe as bs = true ∨ charListLe bs as = true
  | [], _ => Or.inl rfl
  | _ :: _, [] => Or.inr rfl
  | a :: as, b :: bs => by
    by_cases hab : a < b
    · exact Or.inl ((charListLe_cons_iff a b as bs).mpr (Or.inl hab))
    · by_cases hba : b < a
      · exact Or.inr ((charListLe_cons_iff b a bs as).mpr (Or.inl hba))
      · rcases charListLe_total as bs with h | h
        · exact Or.inl ((charListLe_cons_iff a b as bs).mpr (Or.inr ⟨hab, hba, h⟩))
        · exact Or.inr ((charListLe_cons_iff b a bs as).mpr (Or.inr ⟨hba, hab, h⟩))

theorem charListLe_trans : ∀ as bs cs : List Char,
    charListLe as bs = true → charListLe bs cs = true → charListLe as cs = true
  | [], _, _, _, _ => rfl
  | _ :: _, [], _, h, _ => by simp [charListLe] at h
  | _ :: _, _ :: _, [], _, h => by simp [charListLe] at h
  | a :: as, b :: bs, c :: cs, h1, h2 => by
    rw [charListLe_cons_iff] at h1 h2 ⊢
    rcases h1 with hab | ⟨hab, hba, h1⟩
    · rcases h2 with hbc | ⟨hbc, hcb, _⟩
      · exact Or.inl (lt_trans hab hbc)
      · have hbc2 : b = c := le_antisymm (not_lt.mp hcb) (not_lt.mp hbc)
        exact Or.inl (hbc2 ▸ hab)
    · have hab2 : a = b := le_antisymm (not_lt.mp hba) (not_lt.mp hab)
      rcases h2 with hbc | ⟨hbc, hcb, h2⟩
      · exact Or.inl (hab2 ▸ hbc)
      · exact Or.inr ⟨hab2 ▸ hbc, hab2 ▸ hcb, charListLe_trans as bs cs h1 h2⟩

theorem sortStrings_sorted (l : List String) :
    List.Sorted (fun a b : String => strLe a b = true) (sortStrings l) :=
  haveI : IsTotal String fun a b => strLe a b = true :=
    ⟨fun a b => charListLe_total a.data b.data⟩
  haveI : IsTrans String fun a b => strLe a b = true :=
    ⟨fun a b c => charListLe_trans a.data b.data c.data⟩
  List.sorted_insertionSort _ _

theorem showDiags_mem_decomp (ds : List Diagnostic) (d : Diagnostic) (hd : d ∈ ds) :
    ∃ s1 s2 : String, showDiags ds = s1 ++ diagText d ++ s2 := by
  induction ds with
  | nil => cases hd
  | cons e tl ih =>
    rcases List.mem_cons.mp hd with rfl | hmem
    · refine ⟨"", showDiags tl, ?_⟩
      rw [showDiags, String.empty_append]
    · obtain ⟨s1, s2, hs⟩ := ih hmem
      refine ⟨diagText e ++ s1, s2, ?_⟩
      rw [showDiags, hs]
      simp [String.append_assoc]

/-- C1: when a declared variable `v` is defined by exactly two of the file
arguments — file `A` and, later in argument order, file `B` — every run
that produces an output document gives `v` exactly B's attribute (its
token span, passed through verbatim), and A's differing span is not the
output's definition of `v`. -/
theorem c1_last_wins (inp : RunInput) (printed : List Diagnostic)
    (output : List (String × Attribute)) (code : Nat)
    (pre mid post : List VarFileArg) (fA fB : VarFileArg)
    (v : String) (aAttr bAttr : Attribute)
    (hfiles : inp.varFiles = pre ++ fA :: mid ++ fB :: post)
    (hv : v ∈ inp.modVariables)
    (hA : fileAttrs fA v = some aAttr)
    (hB : fileAttrs fB v = some bAttr)
    (hothers : ∀ f, f ∈ pre ∨ f ∈ mid ∨ f ∈ post → fileAttrs f v = none)
    (hrun : run inp = .finished printed output code) :
    ((v, bAttr) ∈ output ∧ ∀ a : Attribute, (v, a) ∈ output → a = bAttr) ∧
    (aAttr ≠ bAttr → (v, aAttr) ∉ output) := by
  obtain ⟨-, -, hout, -⟩ := run_finished_inv _ _ _ _ hrun
  have hpost : lastDef post v = none :=
    lastDef_none_of_forall _ _ fun f hf => hothers f (Or.inr (Or.inr hf))
  have hBP : lastDef (fB :: post) v = some bAttr := by
    simp only [lastDef, hpost, hB]
  have hall : lastDef inp.varFiles v = some bAttr := by
    rw [hfiles, lastDef_append, hBP]
  have hmv : mergeFiles inp.modVariables AttrMap.empty inp.varFiles v = some bAttr := by
    rw [mergeFiles_lookup, if_pos hv, hall]
  have hmem : (v, bAttr) ∈ output := by
    rw [hout, emitOutput_mem]
    exact ⟨(sortStrings_mem _ _).mpr hv, hmv⟩
  have huniq : ∀ a : Attribute, (v, a) ∈ output → a = bAttr := by
    intro a ha
    rw [hout, emitOutput_mem] at ha
    have h2 := ha.2
    rw [hmv] at h2
    exact (Option.some_inj.mp h2).symm
  exact ⟨⟨hmem, huniq⟩, fun hne hmem2 => hne (huniq aAttr hmem2)⟩

/-- Witness for C1 at a concrete two-file input both defining `bar`. -/
theorem c1_last_wins_witness : ("bar", attrB1) ∈ [("bar", attrB1)] :=
  ((c1_last_wins inp1 [] [("bar", attrB1)] 0 [] [] [] fileA1 fileB1 "bar" attrA1 attrB1
    rfl (by decide) (by decide) (by decide)
    (fun f hf => by rcases hf with h | h | h <;> cases h) (by decide)).1).1

/-- C2: a run that produces an output document never outputs an attribute
whose name is outside the declared-variable set, and the diagnostics the
run prints (and its exit status) are fully determined by the
diagnostic-shaped part of the environment: changing the declared set or
any parsed attribute definitions — in particular the undeclared ones that
get dropped — changes neither, so no diagnostic is ever emitted because an
undeclared definition was dropped. -/
theorem c2_undeclared_filtered (inp inp' : RunInput) (printed : List Diagnostic)
    (output : List (String × Attribute)) (code : Nat)
    (hrun : run inp = .finished printed output code)
    (henv : SameDiagEnv inp inp') :
    (∀ p ∈ output, p.1 ∈ inp.modVariables) ∧
    (run inp').printed = (run inp).printed ∧
    (run inp').exitCode = (run inp).exitCode := by
  obtain ⟨-, -, hout, -⟩ := run_finished_inv _ _ _ _ hrun
  refine ⟨?_, ((run_printed_shape inp inp' henv).1).symm,
    ((run_printed_shape inp inp' henv).2).symm⟩
  intro p hp
  rw [hout] at hp
  obtain ⟨pv, pa⟩ := p
  rw [emitOutput_mem] at hp
  exact (sortStrings_mem _ _).mp hp.1

/-- Witness for C2 at a concrete input whose file also defines an
undeclared name. -/
theorem c2_undeclared_filtered_witness : "foo" ∈ inp2.modVariables :=
  (c2_undeclared_filtered inp2 inp2 [] [("foo", attrFoo2)] 0 (by decide)
    ⟨rfl, rfl, rfl, rfl, List.Forall₂.cons ⟨rfl, rfl⟩ List.Forall₂.nil⟩).1
    ("foo", attrFoo2) (by decide)

/-- C3: in every run that produces an output document the attribute names
appear in ascending lexicographic order, whatever the argument order of
the input files and the order of the definitions inside each file. -/
theorem c3_output_sorted (inp : RunInput) (printed : List Diagnostic)
    (output : List (String × Attribute)) (code : Nat)
    (hrun : run inp = .finished printed output code) :
    List.Sorted (fun a b : String => strLe a b = true) (output.map Prod.fst) := by
  obtain ⟨-, -, hout, -⟩ := run_finished_inv _ _ _ _ hrun
  rw [hout, emitOutput_map_fst]
  exact List.Pairwise.filter _ (sortStrings_sorted _)

/-- Witness for C3 at a concrete input whose names arrive out of order. -/
theorem c3_output_sorted_witness :
    List.Sorted (fun a b : String => strLe a b = true)
      ([("bar", attrBar3), ("foo", attrFoo3)].map Prod.fst) :=
  c3_output_sorted inp3 [] [("bar", attrBar3), ("foo", attrFoo3)] 0 (by decide)

/-- C4: whenever an Error-severity diagnostic arises in the module
discovery or the file-parse phase, the run exits with failure status,
builds no output document, and stops at the corresponding checkpoint
showing every diagnostic collected so far: a discovery error aborts with
just the discovery diagnostics, and a parse-phase error aborts after the
file loop with everything collected. -/
theorem c4_error_aborts (inp : RunInput)
    (herr : hasErrorDiag (inp.modDiags ++ inp.varFiles.flatMap fileDiags) = true) :
    (run inp).exitCode = 1 ∧ (run inp).outputDoc = none ∧
    (hasErrorDiag inp.modDiags = true → run inp = .earlyExit inp.modDiags) ∧
    (hasErrorDiag inp.modDiags = false →
      run inp = .earlyExit (inp.modDiags ++ inp.varFiles.flatMap fileDiags)) := by
  rcases run_cases inp with ⟨h1, hr⟩ | ⟨h1, h2, hr⟩ | ⟨h2, hr⟩
  · rw [hr]
    refine ⟨rfl, rfl, fun _ => rfl, fun hc => ?_⟩
    rw [h1] at hc
    exact Bool.noConfusion hc
  · rw [hr]
    refine ⟨rfl, rfl, fun hc => ?_, fun _ => rfl⟩
    rw [h1] at hc
    exact Bool.noConfusion hc
  · rw [h2] at herr
    exact Bool.noConfusion herr

/-- Witness for C4 at a concrete input with one `.json` file argument. -/
theorem c4_error_aborts_witness : (run inp4).exitCode = 1 :=
  (c4_error_aborts inp4 (by decide)).1

/-- C5: a variable-definition file argument whose path ends in `.json` is
rejected with an Error-severity "JSON tfvars not supported" diagnostic
whose detail names the path; the file's contents are never consulted (the
outcome is the same whatever the environment would have answered for that
file), and it contributes nothing to the merge. -/
theorem c5_json_rejected (w : List String) (st : List Diagnostic × AttrMap)
    (p : String) (d d' : FileData) (hp : hasSuffix p ".json" = true) :
    processFile w st ⟨p, d⟩ = (st.1 ++ [jsonNotSupportedDiag p], st.2) ∧
    processFile w st ⟨p, d⟩ = processFile w st ⟨p, d'⟩ ∧
    (jsonNotSupportedDiag p).severity = DiagSeverity.error ∧
    (∃ s1 s2 : String, (jsonNotSupportedDiag p).detail = s1 ++ p ++ s2) ∧
    fileAttrs ⟨p, d⟩ = AttrMap.empty := by
  refine ⟨?_, ?_,
    rfl, ⟨"Can't read ", ": only native syntax .tfvars files are supported.", rfl⟩, ?_⟩
  · simp [processFile, hp]
  · simp [processFile, hp]
  · simp [fileAttrs, hp]

/-- Witness for C5 at a concrete `.json` file argument. -/
theorem c5_json_rejected_witness :
    processFile [] ([], AttrMap.empty) ⟨"v.json", FileData.parsed ⟨[], []⟩⟩ =
      (([] : List Diagnostic) ++ [jsonNotSupportedDiag "v.json"], AttrMap.empty) :=
  (c5_json_rejected [] ([], AttrMap.empty) "v.json" (FileData.parsed ⟨[], []⟩)
    (FileData.readError "boom") (by decide)).1

/-- C6 (parser behaviour modelled from the spec): when a file parses with
zero diagnostics but its body defines the same attribute name twice, the
second occurrence is the one the body's attribute map exposes, hence the
one the file contributes to the merge and the one any merge over that
file records for a declared set containing the name. -/
theorem c6_file_internal_last_wins (p : String) (pf : ParsedFile)
    (b1 b2 b3 : List (String × Attribute)) (n : String) (x y : Attribute)
    (hdiags : pf.hclDiags = [])
    (hbody : pf.body = b1 ++ (n, x) :: b2 ++ (n, y) :: b3)
    (hb3 : ∀ q ∈ b3, q.1 ≠ n)
    (hp : hasSuffix p ".json" = false) :
    bodyAttributes pf.body n = some y ∧
    fileAttrs ⟨p, FileData.parsed pf⟩ n = some y ∧
    ∀ (w : List String) (m : AttrMap), n ∈ w →
      mergeBody w m (fileAttrs ⟨p, FileData.parsed pf⟩) n = some y := by
  have h3 : lastEntry b3 n = none := lastEntry_none_of_forall _ _ hb3
  have h4 : lastEntry ((n, y) :: b3) n = some y := by
    simp [lastEntry, h3]
  have hbn : bodyAttributes pf.body n = some y := by
    rw [bodyAttributes_lookup, hbody, lastEntry_append, h4]
  have hfa : fileAttrs ⟨p, FileData.parsed pf⟩ = bodyAttributes pf.body := by
    simp [fileAttrs, hp, hdiags, hclHasErrors]
  refine ⟨hbn, by rw [hfa]; exact hbn, ?_⟩
  intro w m hw
  simp only [mergeBody, hfa, hbn]
  simp [hw]

/-- Witness for C6 at a concrete duplicated-name body. -/
theorem c6_file_internal_last_wins_witness : bodyAttributes pf6.body "a" = some attrY6 :=
  (c6_file_internal_last_wins "t.tfvars" pf6 [] [] [] "a" attrX6 attrY6 rfl rfl
    (fun q hq => by cases hq) (by decide)).1

/-- C7: a declared variable that no file argument defines simply does not
occur in the output document of a run that produced one; and when the
accumulated diagnostics are error-free the run still exits with success
status — the missing definition produces no diagnostic at all. -/
theorem c7_unused_declared_omitted (inp : RunInput) (printed : List Diagnostic)
    (output : List (String × Attribute)) (code : Nat) (v : String)
    (hrun : run inp = .finished printed output code)
    (hv : v ∈ inp.modVariables)
    (hnone : ∀ f ∈ inp.varFiles, fileAttrs f v = none) :
    (∀ a : Attribute, (v, a) ∉ output) ∧
    (hasErrorDiag printed = false → code = 0) := by
  obtain ⟨-, -, hout, hcode⟩ := run_finished_inv _ _ _ _ hrun
  constructor
  · intro a ha
    rw [hout, emitOutput_mem] at ha
    have h1 := ha.2
    rw [mergeFiles_lookup, if_pos hv, lastDef_none_of_forall _ _ hnone] at h1
    simp [AttrMap.empty] at h1
  · intro hok
    rw [hcode, exitCodeFor, hok]
    simp

/-- Witness for C7: declared `bar` is defined by no file and is absent
from the concrete output. -/
theorem c7_unused_declared_omitted_witness : ("bar", attrFoo7) ∉ [("foo", attrFoo7)] :=
  (c7_unused_declared_omitted inp7 [] [("foo", attrFoo7)] 0 "bar" (by decide) (by decide)
    (by decide)).1 attrFoo7

/-- C8 counterexample: a concrete run that aborts with two collected
diagnostics writes both to standard error, yet the whole text it writes
contains no newline character at all — two diagnostics in one
newline-free stream are not printed one line each. -/
theorem c8_one_line_each_refuted :
    run c8Inp = .earlyExit [c8Diag1, c8Diag2] ∧
    '\n' ∉ (showDiags [c8Diag1, c8Diag2]).data :=
  ⟨by decide, by decide⟩

/-- C8 (amended): before the process exits with failure status, every
diagnostic collected up to the abort point is written to standard error
with its severity prefix ("Error: " or "Warning: ") and, when a source
position is present, a `filename:line` position — but the diagnostics are
written as one concatenated stream with no line separator between them,
not one line each. -/
theorem c8_diagnostics_reported (inp : RunInput) (d : Diagnostic)
    (hfail : (run inp).exitCode = 1)
    (hd : d ∈ (run inp).printed) :
    (∃ s1 s2 : String, showDiags ((run inp).printed) = s1 ++ diagText d ++ s2) ∧
    (d.severity = DiagSeverity.error → ∃ r : String, diagText d = "Error: " ++ r) ∧
    (d.severity = DiagSeverity.warning → ∃ r : String, diagText d = "Warning: " ++ r) ∧
    ∀ ps : SourcePos, d.pos = some ps →
      ∃ s1 s2 : String, diagText d = s1 ++ (ps.filename ++ ":" ++ toString ps.line) ++ s2 := by
  refine ⟨showDiags_mem_decomp _ _ hd, ?_, ?_, ?_⟩
  · intro he
    cases hpos : d.pos with
    | none =>
      exact ⟨d.summary ++ "; " ++ d.detail,
        by simp [diagText, severityText, hpos, he, String.append_assoc] <;> rfl⟩
    | some ps =>
      exact ⟨" (" ++ ps.filename ++ ":" ++ toString ps.line ++ ") " ++
          d.summary ++ "; " ++ d.detail,
        by simp [diagText, severityText, hpos, he, String.append_assoc] <;> rfl⟩
  · intro he
    cases hpos : d.pos with
    | none =>
      exact ⟨d.summary ++ "; " ++ d.detail,
        by simp [diagText, severityText, hpos, he, String.append_assoc] <;> rfl⟩
    | some ps =>
      exact ⟨" (" ++ ps.filename ++ ":" ++ toString ps.line ++ ") " ++
          d.summary ++ "; " ++ d.detail,
        by simp [diagText, severityText, hpos, he, String.append_assoc] <;> rfl⟩
  · intro ps hpos
    exact ⟨severityText d.severity ++ " (", ") " ++ d.summary ++ "; " ++ d.detail,
      by simp [diagText, hpos, String.append_assoc]⟩

/-- Witness for C8 (amended) at the concrete aborting run. -/
theorem c8_diagnostics_reported_witness : ∃ r : String, diagText c8Diag1 = "Error: " ++ r :=
  (c8_diagnostics_reported c8Inp c8Diag1 (by decide) (by decide)).2.1 rfl

/-- C9: a file whose parse produced only warning diagnostics still
contributes its body's attribute map to the merge, and a run whose
accumulated diagnostics contain no error — warnings included — exits with
success status. -/
theorem c9_warnings_not_fatal (inp : RunInput) (p : String) (pf : ParsedFile)
    (hp : hasSuffix p ".json" = false)
    (he : hclHasErrors pf.hclDiags = false)
    (hwarn : hasErrorDiag ((run inp).printed) = false) :
    fileAttrs ⟨p, FileData.parsed pf⟩ = bodyAttributes pf.body ∧
    (run inp).exitCode = 0 := by
  constructor
  · simp [fileAttrs, hp, he]
  · rcases run_cases inp with ⟨h1, hr⟩ | ⟨h1, h2, hr⟩ | ⟨h2, hr⟩
    · rw [hr] at hwarn
      simp only [Outcome.printed] at hwarn
      rw [h1] at hwarn
      exact Bool.noConfusion hwarn
    · rw [hr] at hwarn
      simp only [Outcome.printed] at hwarn
      rw [h2] at hwarn
      exact Bool.noConfusion hwarn
    · rw [hr] at hwarn ⊢
      simp only [Outcome.printed] at hwarn
      simp only [Outcome.exitCode]
      rw [exitCodeFor, hwarn]
      simp

/-- Witness for C9 at a concrete warnings-only run. -/
theorem c9_warnings_not_fatal_witness : (run inp9).exitCode = 0 :=
  (c9_warnings_not_fatal inp9 "w.tfvars" pf9 (by decide) (by decide) (by decide)).2

/-- C10: in a run that produces an output document, a declared variable
appears in the output exactly when some file argument contributes a
definition for it (a file rejected or failing to parse contributes
nothing), and merging one more file into the working map can replace but
never remove an entry. -/
theorem c10_defined_iff_present (inp : RunInput) (printed : List Diagnostic)
    (output : List (String × Attribute)) (code : Nat) (v : String)
    (hrun : run inp = .finished printed output code)
    (hv : v ∈ inp.modVariables) :
    ((∃ a : Attribute, (v, a) ∈ output) ↔ ∃ f ∈ inp.varFiles, fileAttrs f v ≠ none) ∧
    ∀ (w : List String) (m : AttrMap) (f : VarFileArg),
      (m v).isSome = true → ((mergeBody w m (fileAttrs f)) v).isSome = true := by
  obtain ⟨-, -, hout, -⟩ := run_finished_inv _ _ _ _ hrun
  constructor
  · constructor
    · rintro ⟨a, ha⟩
      rw [hout, emitOutput_mem] at ha
      have h1 := ha.2
      rw [mergeFiles_lookup, if_pos hv] at h1
      cases hld : lastDef inp.varFiles v with
      | none =>
        rw [hld] at h1
        simp [AttrMap.empty] at h1
      | some b =>
        obtain ⟨f, hf, hfa⟩ := lastDef_some_mem _ _ _ hld
        refine ⟨f, hf, ?_⟩
        rw [hfa]
        simp
    · rintro ⟨f, hf, hfa⟩
      cases hld : lastDef inp.varFiles v with
      | none => exact absurd hld (lastDef_isSome_of_mem _ v f hf hfa)
      | some b =>
        refine ⟨b, ?_⟩
        rw [hout, emitOutput_mem]
        exact ⟨(sortStrings_mem _ _).mpr hv, by rw [mergeFiles_lookup, if_pos hv, hld]⟩
  · intro w m f hm
    simp only [mergeBody]
    cases hfa : fileAttrs f v with
    | none => exact hm
    | some a =>
      by_cases hw : v ∈ w
      · simp [hw]
      · simp [hw, hm]

/-- Witness for C10 at a concrete input defining the declared name. -/
theorem c10_defined_iff_present_witness : ∃ a : Attribute, ("foo", a) ∈ [("foo", attr10)] :=
  ((c10_defined_iff_present inp10 [] [("foo", attr10)] 0 "foo" (by decide) (by decide)).1).mpr
    ⟨file10, by decide, by decide⟩
